import Mathlib

/-!
Shallow embedding of `src/agent_swarm.py` (task lifecycle, dependency
resolution, cascading unblock, message log, persistence shape).

Python dicts preserve insertion order, so the task map is modelled as an
insertion-ordered association list `List Task` with lookup by id
(`findTask`) and in-place value update (`updateTask`).  Timestamps
(`datetime.now().isoformat()`) are modelled as an abstract `now : Nat`
passed to each operation.  Each operation returns its result tag, the
resulting task store and message log, the per-invocation list of
unblocked ids (the `append_log "Unblocked task {tid}"` trace), and the
number of `save_tasks` calls it performed.
-/

namespace AgentSwarm

/-- `class TaskStatus(Enum)` from the source. -/
inductive TaskStatus where
  | pending
  | inProgress
  | completed
  | blocked
deriving DecidableEq

/-- `@dataclass class Task` from the source. -/
structure Task where
  id : String
  title : String
  description : String
  assignedTo : Option String
  status : TaskStatus
  dependencies : List String
  createdAt : Nat
  completedAt : Option Nat
deriving DecidableEq

/-- `@dataclass class Message` from the source. -/
structure Msg where
  from_agent : String
  to_agent : String
  content : String
  timestamp : Nat
deriving DecidableEq

/-- Character class `[a-zA-Z0-9_-]` of the source's regex. -/
def isIdChar (c : Char) : Bool :=
  c.isAlpha || c.isDigit || c == '_' || c == '-'

/-- Semantics of Python `re.match(r'^[a-zA-Z0-9_-]+$', s)` being truthy.
Python's `$` matches at the end of the string or just before a single
trailing newline, so a nonempty run of id characters followed by one
final newline also matches. -/
def pyMatchIdAnchored (cs : List Char) : Bool :=
  (decide (cs ≠ []) && cs.all isIdChar) ||
  (cs.getLast? == some '\n' && decide (cs.dropLast ≠ []) && cs.dropLast.all isIdChar)

/-- `validate_id` from the source: empty strings are rejected first, then
the regex match decides. -/
def validate_id (idStr : String) : Bool :=
  if idStr.data = [] then false
  else pyMatchIdAnchored idStr.data

/-- Modelled from the spec's words (for comparison with `validate_id`):
the id "restricted to `[A-Za-z0-9_-]+`", i.e. every character of the
nonempty string is an id character. -/
def spec_id_pattern (s : String) : Bool :=
  decide (s.data ≠ []) && s.data.all isIdChar

/-- Dict lookup `self.tasks[task_id]` / membership `task_id in self.tasks`. -/
def findTask (tasks : List Task) (tid : String) : Option Task :=
  tasks.find? (fun t => t.id == tid)

/-- In-place mutation of the dict entry with key `tid`. -/
def updateTask (tasks : List Task) (tid : String) (f : Task → Task) : List Task :=
  tasks.map (fun t => if t.id == tid then f t else t)

/-- `_check_dependencies`: every dependency id must exist in the store and
be `COMPLETED`. -/
def checkDependencies (tasks : List Task) (t : Task) : Bool :=
  t.dependencies.all (fun d =>
    match findTask tasks d with
    | some dt => decide (dt.status = TaskStatus.completed)
    | none => false)

/-- Output of one `_unblock_dependent_tasks` pass. -/
structure CascadeOut where
  tasks : List Task
  msgs : List Msg
  unblocked : List String
deriving DecidableEq

/-- The loop body of `_unblock_dependent_tasks` (shared shape of the
`TechDirector` and `Group` versions): iterate over the store's keys in
insertion order; for each task whose dependencies contain the completed
id and whose status is `BLOCKED`, re-check dependencies against the
current (already partially mutated) store; on success set the task to
`IN_PROGRESS`, record the unblock, and if the task has an assignee append
one notification message to the log. -/
def unblockLoop (completedId : String) (now : Nat) (sender : String)
    (mkContent : String → String) :
    List String → List Task → List Msg → List String → CascadeOut
  | [], tasks, msgs, ub => ⟨tasks, msgs, ub⟩
  | tid :: rest, tasks, msgs, ub =>
    match findTask tasks tid with
    | none => unblockLoop completedId now sender mkContent rest tasks msgs ub
    | some task =>
      if completedId ∈ task.dependencies ∧ task.status = TaskStatus.blocked
          ∧ checkDependencies tasks task = true then
        let tasks' := updateTask tasks tid (fun t => { t with status := TaskStatus.inProgress })
        let msgs' :=
          match task.assignedTo with
          | some g => msgs ++ [⟨sender, g, mkContent tid, now⟩]
          | none => msgs
        unblockLoop completedId now sender mkContent rest tasks' msgs' (ub ++ [tid])
      else
        unblockLoop completedId now sender mkContent rest tasks msgs ub

/-- Content of the unblock notification sent by `TechDirector._unblock_dependent_tasks`. -/
def tdUnblockContent (tid : String) : String :=
  "Task " ++ tid ++ " is now unblocked and ready to work on"

/-- Content of the unblock notification sent by `Group._unblock_dependent_tasks`. -/
def groupUnblockContent (completedId tid : String) : String :=
  "Task " ++ tid ++ " is now unblocked and ready to work on (dependency "
    ++ completedId ++ " completed)"

/-- Result tag of `complete_task`, one per return site of the source.
`alreadyCompleted` is the warning branch that returns `True`. -/
inductive CompleteResult where
  | success
  | alreadyCompleted
  | stillBlocked
  | unknownTask
  | notOwner
deriving DecidableEq

/-- The boolean the Python function actually returns for each branch. -/
def CompleteResult.toBool : CompleteResult → Bool
  | .success => true
  | .alreadyCompleted => true
  | _ => false

structure CompleteOut where
  result : CompleteResult
  tasks : List Task
  msgs : List Msg
  unblocked : List String
  saves : Nat
deriving DecidableEq

namespace TechDirector

/-- `TechDirector._unblock_dependent_tasks`: the loop over
`self.tasks.items()`, followed by one `save_tasks` (counted by the caller). -/
def unblock_dependent_tasks (completedId : String) (now : Nat)
    (tasks : List Task) (msgs : List Msg) : CascadeOut :=
  unblockLoop completedId now "TD" tdUnblockContent (tasks.map (fun t => t.id)) tasks msgs []

/-- `TechDirector.complete_task`: unknown id fails; `COMPLETED` is a
warning returning `True` with no change; `BLOCKED` fails with no change;
otherwise stamp `COMPLETED`/`completed_at`, save, then run the cascade
(which saves once more at its end). -/
def complete_task (now : Nat) (taskId : String)
    (tasks : List Task) (msgs : List Msg) : CompleteOut :=
  match findTask tasks taskId with
  | none => ⟨.unknownTask, tasks, msgs, [], 0⟩
  | some task =>
    if task.status = TaskStatus.completed then ⟨.alreadyCompleted, tasks, msgs, [], 0⟩
    else if task.status = TaskStatus.blocked then ⟨.stillBlocked, tasks, msgs, [], 0⟩
    else
      let tasks1 := updateTask tasks taskId
        (fun t => { t with status := TaskStatus.completed, completedAt := some now })
      let o := unblock_dependent_tasks taskId now tasks1 msgs
      ⟨.success, o.tasks, o.msgs, o.unblocked, 2⟩

/-- Result tag of `assign_task`, one per return site of the source.  Both
`assigned*` branches return `True`. -/
inductive AssignResult where
  | invalidId
  | unknownTask
  | assignedBlocked
  | assignedInProgress
deriving DecidableEq

/-- The boolean the Python function actually returns for each branch. -/
def AssignResult.toBool : AssignResult → Bool
  | .assignedBlocked => true
  | .assignedInProgress => true
  | _ => false

structure AssignOut where
  result : AssignResult
  tasks : List Task
  msgs : List Msg
  saves : Nat
deriving DecidableEq

/-- `TechDirector.assign_task`: validate the group name, look the task
up, record the assignee, then set the status purely from
`_check_dependencies` — `BLOCKED` (saved, no message) when unsatisfied,
else `IN_PROGRESS` (saved, one assignment message appended).  The current
status of the task is never inspected. -/
def assign_task (now : Nat) (taskId groupName : String)
    (tasks : List Task) (msgs : List Msg) : AssignOut :=
  if validate_id groupName = false then ⟨.invalidId, tasks, msgs, 0⟩
  else
    match findTask tasks taskId with
    | none => ⟨.unknownTask, tasks, msgs, 0⟩
    | some task =>
      let task1 := { task with assignedTo := some groupName }
      let tasks1 := updateTask tasks taskId (fun t => { t with assignedTo := some groupName })
      if checkDependencies tasks1 task1 = false then
        ⟨.assignedBlocked,
         updateTask tasks1 taskId (fun t => { t with status := TaskStatus.blocked }),
         msgs, 1⟩
      else
        ⟨.assignedInProgress,
         updateTask tasks1 taskId (fun t => { t with status := TaskStatus.inProgress }),
         msgs ++ [⟨"TD", groupName, "Assigned task " ++ taskId ++ ": " ++ task.title, now⟩],
         1⟩

/-- Result tag of `create_task`, one per return site of the source. -/
inductive CreateResult where
  | invalidId
  | duplicateTask
  | unknownDependency
  | success
deriving DecidableEq

structure CreateOut where
  result : CreateResult
  tasks : List Task
  saves : Nat
deriving DecidableEq

/-- `TechDirector.create_task`: id must pass `validate_id`; the id must
not already exist; every listed dependency must exist; on success the
task is appended in status `PENDING` with no assignee and saved once. -/
def create_task (now : Nat) (taskId title description : String)
    (dependencies : List String) (tasks : List Task) : CreateOut :=
  if validate_id taskId = false then ⟨.invalidId, tasks, 0⟩
  else if (findTask tasks taskId).isSome then ⟨.duplicateTask, tasks, 0⟩
  else if dependencies.any (fun d => (findTask tasks d).isNone) then
    ⟨.unknownDependency, tasks, 0⟩
  else
    ⟨.success,
     tasks ++ [⟨taskId, title, description, none, TaskStatus.pending, dependencies, now, none⟩],
     1⟩

end TechDirector

namespace Group

/-- `Group.complete_task`: unknown id fails; a task not assigned to this
group fails with the ownership error; `COMPLETED` is a warning returning
`True`; `BLOCKED` fails; otherwise stamp `COMPLETED`/`completed_at`, run
the cascade (the `Group` cascade does not save), save once, and append a
completion message to `TD`. -/
def complete_task (name : String) (now : Nat) (taskId : String)
    (tasks : List Task) (msgs : List Msg) : CompleteOut :=
  match findTask tasks taskId with
  | none => ⟨.unknownTask, tasks, msgs, [], 0⟩
  | some task =>
    if task.assignedTo ≠ some name then ⟨.notOwner, tasks, msgs, [], 0⟩
    else if task.status = TaskStatus.completed then ⟨.alreadyCompleted, tasks, msgs, [], 0⟩
    else if task.status = TaskStatus.blocked then ⟨.stillBlocked, tasks, msgs, [], 0⟩
    else
      let tasks1 := updateTask tasks taskId
        (fun t => { t with status := TaskStatus.completed, completedAt := some now })
      let o := unblockLoop taskId now name (groupUnblockContent taskId)
        (tasks1.map (fun t => t.id)) tasks1 msgs []
      ⟨.success, o.tasks, o.msgs ++ [⟨name, "TD", "Task " ++ taskId ++ " completed", now⟩],
       o.unblocked, 1⟩

end Group

/-- Outcome of reading a persisted JSON file: the file may be absent, the
read may fail with an I/O error, the contents may fail to parse, or a
value is obtained. -/
inductive FileRead (α : Type) where
  | absent
  | unreadable
  | parseError
  | ok (v : α)

/-- `StateManager.load_tasks`: a missing file yields the empty map; a
`JSONDecodeError` or I/O error is caught, a diagnostic is printed, and
the empty map is returned — the error is never re-raised. -/
def load_tasks : FileRead (List Task) → List Task × List String
  | .absent => ([], [])
  | .unreadable => ([], ["Error loading tasks"])
  | .parseError => ([], ["Error: Corrupted tasks file."])
  | .ok v => (v, [])

/-- `StateManager.load_messages`: same catch-and-degrade shape. -/
def load_messages : FileRead (List Msg) → List Msg × List String
  | .absent => ([], [])
  | .unreadable => ([], ["Error loading messages"])
  | .parseError => ([], ["Error: Corrupted messages file."])
  | .ok v => (v, [])

/-- `StateManager.load_groups`: same catch-and-degrade shape; a group
registration is a name paired with its creation timestamp. -/
def load_groups : FileRead (List (String × Nat)) → List (String × Nat) × List String
  | .absent => ([], [])
  | .unreadable => ([], ["Error loading groups"])
  | .parseError => ([], ["Error: Corrupted groups file."])
  | .ok v => (v, [])

/-! ### Basic lemmas about the store operations -/

lemma findTask_nil (i : String) : findTask [] i = none := rfl

lemma findTask_cons (t : Task) (ts : List Task) (i : String) :
    findTask (t :: ts) i = if t.id = i then some t else findTask ts i := by
  by_cases h : t.id = i <;> simp [findTask, List.find?_cons, h]

lemma updateTask_nil (j : String) (f : Task → Task) : updateTask [] j f = [] := rfl

lemma updateTask_cons (t : Task) (ts : List Task) (j : String) (f : Task → Task) :
    updateTask (t :: ts) j f = (if t.id = j then f t else t) :: updateTask ts j f := by
  by_cases h : t.id = j <;> simp [updateTask, h]

lemma findTask_id_eq {ts : List Task} {i : String} {t : Task}
    (h : findTask ts i = some t) : t.id = i := by
  have := List.find?_some h
  simpa using this

lemma findTask_updateTask {f : Task → Task} (hid : ∀ u, (f u).id = u.id)
    (ts : List Task) (j i : String) :
    findTask (updateTask ts j f) i
      = (findTask ts i).map (fun u => if u.id = j then f u else u) := by
  induction ts with
  | nil => rfl
  | cons a ts ih =>
    rw [updateTask_cons, findTask_cons, findTask_cons]
    by_cases haj : a.id = j
    · rw [if_pos haj]
      by_cases hai : a.id = i
      · have hfa : (f a).id = i := (hid a).trans hai
        rw [if_pos hfa, if_pos hai]
        simp [haj]
      · have hfa : ¬(f a).id = i := by rw [hid a]; exact hai
        rw [if_neg hfa, if_neg hai]
        exact ih
    · rw [if_neg haj]
      by_cases hai : a.id = i
      · rw [if_pos hai, if_pos hai]
        simp [haj]
      · rw [if_neg hai, if_neg hai]
        exact ih

lemma findTask_updateTask_self {f : Task → Task} (hid : ∀ u, (f u).id = u.id)
    {ts : List Task} {j : String} {t : Task} (h : findTask ts j = some t) :
    findTask (updateTask ts j f) j = some (f t) := by
  rw [findTask_updateTask hid, h]
  simp [findTask_id_eq h]

lemma findTask_updateTask_ne {f : Task → Task} (hid : ∀ u, (f u).id = u.id)
    {ts : List Task} {j i : String} (hne : i ≠ j) :
    findTask (updateTask ts j f) i = findTask ts i := by
  rw [findTask_updateTask hid]
  cases h : findTask ts i with
  | none => rfl
  | some u =>
    have : u.id = i := findTask_id_eq h
    simp [this, hne]

lemma updateTask_map_id {f : Task → Task} (hid : ∀ u, (f u).id = u.id)
    (ts : List Task) (j : String) :
    (updateTask ts j f).map (fun t => t.id) = ts.map (fun t => t.id) := by
  induction ts with
  | nil => rfl
  | cons a ts ih =>
    rw [updateTask_cons]
    by_cases h : a.id = j <;> simp [h, hid a, ih]

lemma checkDependencies_updateTask {f : Task → Task} (hid : ∀ u, (f u).id = u.id)
    (hst : ∀ u, (f u).status = u.status) (ts : List Task) (j : String) (t : Task) :
    checkDependencies (updateTask ts j f) t = checkDependencies ts t := by
  have hfun : ∀ d : String,
      (match findTask (updateTask ts j f) d with
       | some dt => decide (dt.status = TaskStatus.completed)
       | none => false)
      = (match findTask ts d with
         | some dt => decide (dt.status = TaskStatus.completed)
         | none => false) := by
    intro d
    rw [findTask_updateTask hid]
    cases findTask ts d with
    | none => rfl
    | some u =>
      by_cases h : u.id = j <;> simp [h, hst u]
  simp only [checkDependencies]
  generalize t.dependencies = ds
  induction ds with
  | nil => rfl
  | cons d ds ih => simp [List.all_cons, hfun d, ih]

/-- The cascade never touches a task whose status is not `BLOCKED`: such a
task is found unchanged after any `unblockLoop` run. -/
lemma unblockLoop_findTask_preserve (cid : String) (now : Nat) (sndr : String)
    (mk : String → String) {i : String} {t : Task} (hnb : t.status ≠ TaskStatus.blocked) :
    ∀ (pend : List String) (ts : List Task) (msgs : List Msg) (ub : List String),
      findTask ts i = some t →
      findTask (unblockLoop cid now sndr mk pend ts msgs ub).tasks i = some t := by
  intro pend
  induction pend with
  | nil => intro ts msgs ub h; simpa [unblockLoop] using h
  | cons tid rest ih =>
    intro ts msgs ub h
    cases hft : findTask ts tid with
    | none =>
      simpa [unblockLoop, hft] using ih ts msgs ub h
    | some task =>
      by_cases hc : cid ∈ task.dependencies ∧ task.status = TaskStatus.blocked
          ∧ checkDependencies ts task = true
      · have hi : i ≠ tid := by
          intro e
          subst e
          rw [h] at hft
          cases hft
          exact hnb hc.2.1
        simp only [unblockLoop, hft, if_pos hc]
        apply ih
        rw [findTask_updateTask_ne
          (f := fun t => { t with status := TaskStatus.inProgress }) (fun u => rfl) hi]
        exact h
      · simpa [unblockLoop, hft, if_neg hc] using ih ts msgs ub h

/-- The ids recorded by one cascade pass extend the accumulator with a
subsequence of the visited id list, in visit order. -/
lemma unblockLoop_unblocked_sublist (cid : String) (now : Nat) (sndr : String)
    (mk : String → String) :
    ∀ (pend : List String) (ts : List Task) (msgs : List Msg) (ub : List String),
      ∃ extra, (unblockLoop cid now sndr mk pend ts msgs ub).unblocked = ub ++ extra
        ∧ extra.Sublist pend := by
  intro pend
  induction pend with
  | nil => intro ts msgs ub; exact ⟨[], by simp [unblockLoop], List.Sublist.refl []⟩
  | cons tid rest ih =>
    intro ts msgs ub
    cases hft : findTask ts tid with
    | none =>
      obtain ⟨e, he, hs⟩ := ih ts msgs ub
      exact ⟨e, by simpa [unblockLoop, hft] using he, hs.cons tid⟩
    | some task =>
      by_cases hc : cid ∈ task.dependencies ∧ task.status = TaskStatus.blocked
          ∧ checkDependencies ts task = true
      · obtain ⟨e, he, hs⟩ := ih
          (updateTask ts tid (fun t => { t with status := TaskStatus.inProgress }))
          (match task.assignedTo with
           | some g => msgs ++ [⟨sndr, g, mk tid, now⟩]
           | none => msgs)
          (ub ++ [tid])
        refine ⟨tid :: e, ?_, hs.cons₂ tid⟩
        simp only [unblockLoop, hft, if_pos hc]
        rw [he, List.append_assoc]
        rfl
      · obtain ⟨e, he, hs⟩ := ih ts msgs ub
        exact ⟨e, by simpa [unblockLoop, hft, if_neg hc] using he, hs.cons tid⟩

/-- Core behaviour of a successful `TechDirector.complete_task`: on a task
that is neither `COMPLETED` nor `BLOCKED`, it reports success and the task
ends `COMPLETED` with `completed_at` stamped to the invocation time, the
cascade notwithstanding. -/
lemma complete_td_core (now : Nat) {tid : String} {tasks : List Task} (msgs : List Msg) {t : Task}
    (ht : findTask tasks tid = some t)
    (hnc : t.status ≠ TaskStatus.completed) (hnb : t.status ≠ TaskStatus.blocked) :
    (TechDirector.complete_task now tid tasks msgs).result = CompleteResult.success ∧
    findTask (TechDirector.complete_task now tid tasks msgs).tasks tid
      = some { t with status := TaskStatus.completed, completedAt := some now } := by
  have hfind : findTask
      (updateTask tasks tid
        (fun u => { u with status := TaskStatus.completed, completedAt := some now })) tid
      = some { t with status := TaskStatus.completed, completedAt := some now } :=
    findTask_updateTask_self
      (f := fun u => { u with status := TaskStatus.completed, completedAt := some now })
      (fun u => rfl) ht
  constructor
  · simp only [TechDirector.complete_task, ht, if_neg hnc, if_neg hnb]
  · simp only [TechDirector.complete_task, ht, if_neg hnc, if_neg hnb,
      TechDirector.unblock_dependent_tasks]
    exact unblockLoop_findTask_preserve _ _ _ _
      (t := { t with status := TaskStatus.completed, completedAt := some now })
      (fun hx => TaskStatus.noConfusion hx) _ _ _ _ hfind

/-- Core behaviour of `TechDirector.assign_task` on an existing task and a
valid group name: it always succeeds, records the assignee, and sets the
status purely from dependency satisfaction, never inspecting the current
status. -/
lemma assign_td_core (now : Nat) {tid g : String} {tasks : List Task} (msgs : List Msg) {t : Task}
    (hg : validate_id g = true) (ht : findTask tasks tid = some t) :
    (TechDirector.assign_task now tid g tasks msgs).result
      = (if checkDependencies tasks t = true then TechDirector.AssignResult.assignedInProgress
         else TechDirector.AssignResult.assignedBlocked) ∧
    findTask (TechDirector.assign_task now tid g tasks msgs).tasks tid
      = some { t with
               assignedTo := some g,
               status := (if checkDependencies tasks t = true then TaskStatus.inProgress
                          else TaskStatus.blocked) } ∧
    (TechDirector.assign_task now tid g tasks msgs).saves = 1 := by
  have hgf : ¬validate_id g = false := by simp [hg]
  have hcd : checkDependencies
      (updateTask tasks tid (fun u => { u with assignedTo := some g }))
      { t with assignedTo := some g } = checkDependencies tasks t :=
    checkDependencies_updateTask (f := fun u => { u with assignedTo := some g })
      (fun u => rfl) (fun u => rfl) tasks tid _
  have hf1 : findTask (updateTask tasks tid (fun u => { u with assignedTo := some g })) tid
      = some { t with assignedTo := some g } :=
    findTask_updateTask_self (f := fun u => { u with assignedTo := some g }) (fun u => rfl) ht
  simp only [TechDirector.assign_task, if_neg hgf, ht]
  rw [hcd]
  by_cases hc : checkDependencies tasks t = true
  · have hcf : ¬checkDependencies tasks t = false := by simp [hc]
    rw [if_neg hcf, if_pos hc, if_pos hc]
    refine ⟨rfl, ?_, rfl⟩
    exact findTask_updateTask_self
      (f := fun u => { u with status := TaskStatus.inProgress }) (fun u => rfl) hf1
  · have hcf : checkDependencies tasks t = false := by
      cases hcc : checkDependencies tasks t
      · rfl
      · exact absurd hcc hc
    rw [if_pos hcf, if_neg hc, if_neg hc]
    refine ⟨rfl, ?_, rfl⟩
    exact findTask_updateTask_self
      (f := fun u => { u with status := TaskStatus.blocked }) (fun u => rfl) hf1

/-- `TechDirector.complete_task` on an already-`COMPLETED` task: the
warning branch, returning `True` and changing nothing. -/
lemma complete_td_already {now : Nat} {tid : String} {ts : List Task} {ms : List Msg} {u : Task}
    (hu : findTask ts tid = some u) (hc : u.status = TaskStatus.completed) :
    TechDirector.complete_task now tid ts ms
      = ⟨CompleteResult.alreadyCompleted, ts, ms, [], 0⟩ := by
  simp only [TechDirector.complete_task, hu, if_pos hc]

/-- `TechDirector.complete_task` on a `BLOCKED` task: the failure branch,
changing nothing. -/
lemma complete_td_still_blocked {now : Nat} {tid : String} {ts : List Task} {ms : List Msg}
    {u : Task} (hu : findTask ts tid = some u) (hb : u.status = TaskStatus.blocked) :
    TechDirector.complete_task now tid ts ms
      = ⟨CompleteResult.stillBlocked, ts, ms, [], 0⟩ := by
  have hnc : u.status ≠ TaskStatus.completed := by
    rw [hb]; exact fun hx => TaskStatus.noConfusion hx
  simp only [TechDirector.complete_task, hu, if_neg hnc, if_pos hb]

/-! ### Claim theorems -/

/-- C1: for every store holding a task A with no dependencies (and a
completable status) and a task B with dependencies exactly `[A]`,
assigned to some group and `BLOCKED`, `complete_task A` reports success,
transitions B to `IN_PROGRESS`, and appends exactly one notification
message, addressed to B's assignee, to the message log. -/
theorem c1_complete_cascades_unblock (now : Nat) (g : String) (msgs : List Msg)
    (tA tB : Task)
    (hAdep : tA.dependencies = [])
    (hAs : tA.status = TaskStatus.pending ∨ tA.status = TaskStatus.inProgress)
    (hBdep : tB.dependencies = [tA.id])
    (hBs : tB.status = TaskStatus.blocked)
    (hBasg : tB.assignedTo = some g)
    (hne : tA.id ≠ tB.id) :
    TechDirector.complete_task now tA.id [tA, tB] msgs
      = ⟨CompleteResult.success,
         [{ tA with status := TaskStatus.completed, completedAt := some now },
          { tB with status := TaskStatus.inProgress }],
         msgs ++ [⟨"TD", g, tdUnblockContent tB.id, now⟩],
         [tB.id], 2⟩ := by
  obtain ⟨ida, tta, dda, asa, sa, dla, caa, coa⟩ := tA
  obtain ⟨idb, ttb, ddb, asb, sb, dlb, cab, cob⟩ := tB
  dsimp only at hAdep hAs hBdep hBs hBasg hne ⊢
  subst hAdep hBdep hBs hBasg
  have hba : idb ≠ ida := Ne.symm hne
  rcases hAs with h | h <;> subst h <;>
    simp [TechDirector.complete_task, TechDirector.unblock_dependent_tasks, unblockLoop,
      findTask_cons, findTask_nil, updateTask_cons, updateTask_nil, checkDependencies,
      hne, hba, List.all_cons]

/-- C1 witness: a concrete two-task store exercising the theorem. -/
theorem c1_witness :
    TechDirector.complete_task 3 "a"
      [⟨"a", "A", "dA", none, TaskStatus.pending, [], 0, none⟩,
       ⟨"b", "B", "dB", some "g1", TaskStatus.blocked, ["a"], 0, none⟩] []
      = ⟨CompleteResult.success,
         [⟨"a", "A", "dA", none, TaskStatus.completed, [], 0, some 3⟩,
          ⟨"b", "B", "dB", some "g1", TaskStatus.inProgress, ["a"], 0, none⟩],
         [⟨"TD", "g1", tdUnblockContent "b", 3⟩], ["b"], 2⟩ :=
  c1_complete_cascades_unblock 3 "g1" []
    ⟨"a", "A", "dA", none, TaskStatus.pending, [], 0, none⟩
    ⟨"b", "B", "dB", some "g1", TaskStatus.blocked, ["a"], 0, none⟩
    rfl (Or.inl rfl) rfl rfl rfl (by decide)

/-- C3: the cascade of one `complete_task` invocation is single-pass: in
a chain A ← B ← C with B and C `BLOCKED`, completing A moves only B to
`IN_PROGRESS`; C stays `BLOCKED` (and untouched) in that invocation. -/
theorem c3_single_pass_cascade (now : Nat) (g : String) (msgs : List Msg)
    (tA tB tC : Task)
    (hAdep : tA.dependencies = [])
    (hAs : tA.status = TaskStatus.pending ∨ tA.status = TaskStatus.inProgress)
    (hBdep : tB.dependencies = [tA.id])
    (hBs : tB.status = TaskStatus.blocked)
    (hBasg : tB.assignedTo = some g)
    (hCdep : tC.dependencies = [tB.id])
    (hCs : tC.status = TaskStatus.blocked)
    (hab : tA.id ≠ tB.id) (hac : tA.id ≠ tC.id) (hbc : tB.id ≠ tC.id) :
    TechDirector.complete_task now tA.id [tA, tB, tC] msgs
      = ⟨CompleteResult.success,
         [{ tA with status := TaskStatus.completed, completedAt := some now },
          { tB with status := TaskStatus.inProgress },
          tC],
         msgs ++ [⟨"TD", g, tdUnblockContent tB.id, now⟩],
         [tB.id], 2⟩ := by
  obtain ⟨ida, tta, dda, asa, sa, dla, caa, coa⟩ := tA
  obtain ⟨idb, ttb, ddb, asb, sb, dlb, cab, cob⟩ := tB
  obtain ⟨idc, ttc, ddc, asc, sc, dlc, cac, coc⟩ := tC
  dsimp only at hAdep hAs hBdep hBs hBasg hCdep hCs hab hac hbc ⊢
  subst hAdep hBdep hBs hBasg hCdep hCs
  have hba : idb ≠ ida := Ne.symm hab
  have hca : idc ≠ ida := Ne.symm hac
  have hcb : idc ≠ idb := Ne.symm hbc
  rcases hAs with h | h <;> subst h <;>
    simp [TechDirector.complete_task, TechDirector.unblock_dependent_tasks, unblockLoop,
      findTask_cons, findTask_nil, updateTask_cons, updateTask_nil, checkDependencies,
      hab, hac, hbc, hba, hca, hcb, List.all_cons]

/-- C3 witness: a concrete three-task chain exercising the theorem. -/
theorem c3_witness :
    TechDirector.complete_task 3 "a"
      [⟨"a", "A", "dA", none, TaskStatus.pending, [], 0, none⟩,
       ⟨"b", "B", "dB", some "g1", TaskStatus.blocked, ["a"], 0, none⟩,
       ⟨"c", "C", "dC", some "g2", TaskStatus.blocked, ["b"], 0, none⟩] []
      = ⟨CompleteResult.success,
         [⟨"a", "A", "dA", none, TaskStatus.completed, [], 0, some 3⟩,
          ⟨"b", "B", "dB", some "g1", TaskStatus.inProgress, ["a"], 0, none⟩,
          ⟨"c", "C", "dC", some "g2", TaskStatus.blocked, ["b"], 0, none⟩],
         [⟨"TD", "g1", tdUnblockContent "b", 3⟩], ["b"], 2⟩ :=
  c3_single_pass_cascade 3 "g1" []
    ⟨"a", "A", "dA", none, TaskStatus.pending, [], 0, none⟩
    ⟨"b", "B", "dB", some "g1", TaskStatus.blocked, ["a"], 0, none⟩
    ⟨"c", "C", "dC", some "g2", TaskStatus.blocked, ["b"], 0, none⟩
    rfl (Or.inl rfl) rfl rfl rfl rfl rfl (by decide) (by decide) (by decide)

/-- C4: completing a `BLOCKED` task fails with the still-blocked error and
leaves everything unchanged — same task store, same message log, no
unblock notifications, and zero `save_tasks` calls — both through the
Director and through the owning Group facade. -/
theorem c4_blocked_complete_fails_unchanged (now : Nat) (name tid : String)
    (tasks : List Task) (msgs : List Msg) (t : Task)
    (ht : findTask tasks tid = some t)
    (hb : t.status = TaskStatus.blocked)
    (hown : t.assignedTo = some name) :
    TechDirector.complete_task now tid tasks msgs
      = ⟨CompleteResult.stillBlocked, tasks, msgs, [], 0⟩ ∧
    Group.complete_task name now tid tasks msgs
      = ⟨CompleteResult.stillBlocked, tasks, msgs, [], 0⟩ := by
  have hnc : t.status ≠ TaskStatus.completed := by rw [hb]; exact fun hx => TaskStatus.noConfusion hx
  have how : ¬t.assignedTo ≠ some name := by simp [hown]
  constructor
  · simp only [TechDirector.complete_task, ht, if_neg hnc, if_pos hb]
  · simp only [Group.complete_task, ht, if_neg how, if_neg hnc, if_pos hb]

/-- C4 witness: a concrete blocked task, completed through both facades. -/
theorem c4_witness :
    TechDirector.complete_task 3 "t"
        [⟨"t", "T", "", some "g", TaskStatus.blocked, ["d"], 0, none⟩] []
      = ⟨CompleteResult.stillBlocked,
         [⟨"t", "T", "", some "g", TaskStatus.blocked, ["d"], 0, none⟩], [], [], 0⟩ ∧
    Group.complete_task "g" 3 "t"
        [⟨"t", "T", "", some "g", TaskStatus.blocked, ["d"], 0, none⟩] []
      = ⟨CompleteResult.stillBlocked,
         [⟨"t", "T", "", some "g", TaskStatus.blocked, ["d"], 0, none⟩], [], [], 0⟩ :=
  c4_blocked_complete_fails_unchanged 3 "g" "t"
    [⟨"t", "T", "", some "g", TaskStatus.blocked, ["d"], 0, none⟩] []
    ⟨"t", "T", "", some "g", TaskStatus.blocked, ["d"], 0, none⟩ rfl rfl rfl

/-- C6: after a first successful completion, a second `complete_task` on
the same task returns the already-completed warning (which the source
reports as success), changes neither the task store nor the message log,
performs no save, and `completed_at` keeps the stamp of the first call. -/
theorem c6_complete_idempotent (now1 now2 : Nat) (tid : String)
    (tasks : List Task) (msgs : List Msg) (t : Task)
    (ht : findTask tasks tid = some t)
    (hnc : t.status ≠ TaskStatus.completed) (hnb : t.status ≠ TaskStatus.blocked) :
    TechDirector.complete_task now2 tid
        (TechDirector.complete_task now1 tid tasks msgs).tasks
        (TechDirector.complete_task now1 tid tasks msgs).msgs
      = ⟨CompleteResult.alreadyCompleted,
         (TechDirector.complete_task now1 tid tasks msgs).tasks,
         (TechDirector.complete_task now1 tid tasks msgs).msgs, [], 0⟩ ∧
    CompleteResult.alreadyCompleted.toBool = true ∧
    findTask (TechDirector.complete_task now1 tid tasks msgs).tasks tid
      = some { t with status := TaskStatus.completed, completedAt := some now1 } := by
  obtain ⟨-, hfind⟩ := complete_td_core now1 msgs ht hnc hnb
  exact ⟨complete_td_already hfind rfl, rfl, hfind⟩

/-- C6 witness: complete a concrete pending task twice. -/
theorem c6_witness :
    TechDirector.complete_task 2 "t1"
        (TechDirector.complete_task 1 "t1"
          [⟨"t1", "T", "D", none, TaskStatus.pending, [], 0, none⟩] []).tasks
        (TechDirector.complete_task 1 "t1"
          [⟨"t1", "T", "D", none, TaskStatus.pending, [], 0, none⟩] []).msgs
      = ⟨CompleteResult.alreadyCompleted,
         (TechDirector.complete_task 1 "t1"
           [⟨"t1", "T", "D", none, TaskStatus.pending, [], 0, none⟩] []).tasks,
         (TechDirector.complete_task 1 "t1"
           [⟨"t1", "T", "D", none, TaskStatus.pending, [], 0, none⟩] []).msgs, [], 0⟩ ∧
    CompleteResult.alreadyCompleted.toBool = true ∧
    findTask (TechDirector.complete_task 1 "t1"
        [⟨"t1", "T", "D", none, TaskStatus.pending, [], 0, none⟩] []).tasks "t1"
      = some ⟨"t1", "T", "D", none, TaskStatus.completed, [], 0, some 1⟩ :=
  c6_complete_idempotent 1 2 "t1"
    [⟨"t1", "T", "D", none, TaskStatus.pending, [], 0, none⟩] []
    ⟨"t1", "T", "D", none, TaskStatus.pending, [], 0, none⟩
    rfl (by decide) (by decide)

/-- C2 counterexample: at these concrete inputs the code completes a
`PENDING` task directly to `COMPLETED` (no `IN_PROGRESS` in between), and
an `assign_task` on a `COMPLETED` task changes its status to
`IN_PROGRESS` — both contradicting the claimed state machine, which
allows `Completed` only from `InProgress` and says assignment leaves a
`Completed` task's status alone. -/
theorem c2_counterexample :
    (TechDirector.complete_task 5 "t1"
        [⟨"t1", "T", "D", some "g", TaskStatus.pending, [], 0, none⟩] []).result
      = CompleteResult.success ∧
    (TechDirector.complete_task 5 "t1"
        [⟨"t1", "T", "D", some "g", TaskStatus.pending, [], 0, none⟩] []).tasks
      = [⟨"t1", "T", "D", some "g", TaskStatus.completed, [], 0, some 5⟩] ∧
    (TechDirector.assign_task 7 "t1" "g"
        [⟨"t1", "T", "D", some "g", TaskStatus.completed, [], 0, some 5⟩] []).tasks
      = [⟨"t1", "T", "D", some "g", TaskStatus.inProgress, [], 0, some 5⟩] := by decide

/-- C2 amended: `complete_task` moves any task that is neither
`COMPLETED` nor `BLOCKED` — `PENDING` as well as `IN_PROGRESS` — directly
to `COMPLETED`; and `assign_task` never inspects the current status, so a
`COMPLETED` task is re-evaluated from dependency satisfaction and moves
to `IN_PROGRESS` or `BLOCKED`. -/
theorem c2_amended_status_edges (now now2 : Nat) (tid tid2 g : String)
    (tasks : List Task) (msgs : List Msg) (t t2 : Task)
    (ht : findTask tasks tid = some t)
    (hnc : t.status ≠ TaskStatus.completed) (hnb : t.status ≠ TaskStatus.blocked)
    (ht2 : findTask tasks tid2 = some t2) (hc2 : t2.status = TaskStatus.completed)
    (hg : validate_id g = true) :
    ((TechDirector.complete_task now tid tasks msgs).result = CompleteResult.success ∧
     findTask (TechDirector.complete_task now tid tasks msgs).tasks tid
       = some { t with status := TaskStatus.completed, completedAt := some now }) ∧
    findTask (TechDirector.assign_task now2 tid2 g tasks msgs).tasks tid2
      = some { t2 with
               assignedTo := some g,
               status := (if checkDependencies tasks t2 = true then TaskStatus.inProgress
                          else TaskStatus.blocked) } :=
  ⟨complete_td_core now msgs ht hnc hnb, (assign_td_core now2 msgs hg ht2).2.1⟩

/-- C2 amended witness: a pending task is completed directly; a completed
task is re-assigned and moves back to in-progress. -/
theorem c2_witness :
    ((TechDirector.complete_task 4 "p"
        [⟨"p", "P", "", none, TaskStatus.pending, [], 0, none⟩,
         ⟨"c", "C", "", none, TaskStatus.completed, [], 0, some 1⟩] []).result
       = CompleteResult.success ∧
     findTask (TechDirector.complete_task 4 "p"
        [⟨"p", "P", "", none, TaskStatus.pending, [], 0, none⟩,
         ⟨"c", "C", "", none, TaskStatus.completed, [], 0, some 1⟩] []).tasks "p"
       = some ⟨"p", "P", "", none, TaskStatus.completed, [], 0, some 4⟩) ∧
    findTask (TechDirector.assign_task 5 "c" "g"
        [⟨"p", "P", "", none, TaskStatus.pending, [], 0, none⟩,
         ⟨"c", "C", "", none, TaskStatus.completed, [], 0, some 1⟩] []).tasks "c"
      = some ⟨"c", "C", "", some "g", TaskStatus.inProgress, [], 0, some 1⟩ :=
  c2_amended_status_edges 4 5 "p" "c" "g"
    [⟨"p", "P", "", none, TaskStatus.pending, [], 0, none⟩,
     ⟨"c", "C", "", none, TaskStatus.completed, [], 0, some 1⟩] []
    ⟨"p", "P", "", none, TaskStatus.pending, [], 0, none⟩
    ⟨"c", "C", "", none, TaskStatus.completed, [], 0, some 1⟩
    rfl (by decide) (by decide) (by decide) rfl (by decide)

/-- C10: `assign_task` never inspects the task's current status: on any
existing task and valid group name it returns `True`, records the
assignee, keeps `completed_at`, and sets the status purely from
dependency satisfaction against the store — `IN_PROGRESS` when every
dependency exists and is `COMPLETED`, else `BLOCKED`.  A later
`complete_task` then overwrites `completed_at` with the new time (or, if
the re-assignment left the task `BLOCKED`, fails and changes nothing). -/
theorem c10_assign_reevaluates_status (now now2 : Nat) (tid g : String)
    (tasks : List Task) (msgs : List Msg) (t : Task)
    (hg : validate_id g = true) (ht : findTask tasks tid = some t) :
    (TechDirector.assign_task now tid g tasks msgs).result.toBool = true ∧
    findTask (TechDirector.assign_task now tid g tasks msgs).tasks tid
      = some { t with
               assignedTo := some g,
               status := (if checkDependencies tasks t = true then TaskStatus.inProgress
                          else TaskStatus.blocked) } ∧
    findTask (TechDirector.complete_task now2 tid
        (TechDirector.assign_task now tid g tasks msgs).tasks
        (TechDirector.assign_task now tid g tasks msgs).msgs).tasks tid
      = some (if checkDependencies tasks t = true
              then { t with
                     assignedTo := some g,
                     status := TaskStatus.completed,
                     completedAt := some now2 }
              else { t with assignedTo := some g, status := TaskStatus.blocked }) := by
  obtain ⟨hres, hfind, -⟩ := assign_td_core now msgs hg ht
  refine ⟨?_, hfind, ?_⟩
  · rw [hres]
    by_cases hc : checkDependencies tasks t = true
    · rw [if_pos hc]; rfl
    · rw [if_neg hc]; rfl
  · by_cases hc : checkDependencies tasks t = true
    · rw [if_pos hc]
      rw [if_pos hc] at hfind
      exact (complete_td_core now2 _ hfind
        (fun hx => TaskStatus.noConfusion hx) (fun hx => TaskStatus.noConfusion hx)).2
    · rw [if_neg hc]
      rw [if_neg hc] at hfind
      rw [complete_td_still_blocked hfind rfl]
      exact hfind

/-- C10 witness: re-assigning a completed task whose single dependency is
completed moves it back to in-progress keeping its stamp, and a later
completion overwrites the stamp. -/
theorem c10_witness :
    (TechDirector.assign_task 8 "t2" "alpha"
        [⟨"d1", "D", "", none, TaskStatus.completed, [], 0, some 1⟩,
         ⟨"t2", "T", "", some "old", TaskStatus.completed, ["d1"], 0, some 2⟩] []).result.toBool
      = true ∧
    findTask (TechDirector.assign_task 8 "t2" "alpha"
        [⟨"d1", "D", "", none, TaskStatus.completed, [], 0, some 1⟩,
         ⟨"t2", "T", "", some "old", TaskStatus.completed, ["d1"], 0, some 2⟩] []).tasks "t2"
      = some ⟨"t2", "T", "", some "alpha", TaskStatus.inProgress, ["d1"], 0, some 2⟩ ∧
    findTask (TechDirector.complete_task 9 "t2"
        (TechDirector.assign_task 8 "t2" "alpha"
          [⟨"d1", "D", "", none, TaskStatus.completed, [], 0, some 1⟩,
           ⟨"t2", "T", "", some "old", TaskStatus.completed, ["d1"], 0, some 2⟩] []).tasks
        (TechDirector.assign_task 8 "t2" "alpha"
          [⟨"d1", "D", "", none, TaskStatus.completed, [], 0, some 1⟩,
           ⟨"t2", "T", "", some "old", TaskStatus.completed, ["d1"], 0, some 2⟩] []).msgs).tasks "t2"
      = some ⟨"t2", "T", "", some "alpha", TaskStatus.completed, ["d1"], 0, some 9⟩ :=
  c10_assign_reevaluates_status 8 9 "t2" "alpha"
    [⟨"d1", "D", "", none, TaskStatus.completed, [], 0, some 1⟩,
     ⟨"t2", "T", "", some "old", TaskStatus.completed, ["d1"], 0, some 2⟩] []
    ⟨"t2", "T", "", some "old", TaskStatus.completed, ["d1"], 0, some 2⟩
    (by decide) rfl

/-- C7 counterexample: with store insertion order `a, z, b` (both `z` and
`b` blocked solely on `a`), completing `a` emits the unblock
notifications for `z` first and `b` second, although `"b" < "z"` in id
order — the cascade visits tasks in store (insertion) order, not in
ascending-id order as claimed.  (`'b' < 'z'` witnesses the id
ordering at the character level.) -/
theorem c7_counterexample :
    TechDirector.complete_task 5 "a"
      [⟨"a", "A", "", none, TaskStatus.pending, [], 0, none⟩,
       ⟨"z", "Z", "", some "g1", TaskStatus.blocked, ["a"], 0, none⟩,
       ⟨"b", "B", "", some "g2", TaskStatus.blocked, ["a"], 0, none⟩] []
      = ⟨CompleteResult.success,
         [⟨"a", "A", "", none, TaskStatus.completed, [], 0, some 5⟩,
          ⟨"z", "Z", "", some "g1", TaskStatus.inProgress, ["a"], 0, none⟩,
          ⟨"b", "B", "", some "g2", TaskStatus.inProgress, ["a"], 0, none⟩],
         [⟨"TD", "g1", tdUnblockContent "z", 5⟩, ⟨"TD", "g2", tdUnblockContent "b", 5⟩],
         ["z", "b"], 2⟩ ∧
    ('b' < 'z') := by decide

/-- C7 amended: the cascade visits tasks in the store's insertion order
(deterministic for a given store, but not ascending id), so the sequence
of unblocked task ids — and hence of emitted notifications — is a
subsequence of the store's id sequence in store order. -/
theorem c7_amended_store_order (now : Nat) (tid : String)
    (tasks : List Task) (msgs : List Msg) :
    ((TechDirector.complete_task now tid tasks msgs).unblocked).Sublist
      (tasks.map (fun t => t.id)) := by
  cases hft : findTask tasks tid with
  | none => simp [TechDirector.complete_task, hft]
  | some task =>
    by_cases h1 : task.status = TaskStatus.completed
    · simp [TechDirector.complete_task, hft, if_pos h1]
    · by_cases h2 : task.status = TaskStatus.blocked
      · simp [TechDirector.complete_task, hft, if_neg h1, if_pos h2]
      · simp only [TechDirector.complete_task, hft, if_neg h1, if_neg h2,
          TechDirector.unblock_dependent_tasks]
        obtain ⟨e, he, hs⟩ := unblockLoop_unblocked_sublist tid now "TD" tdUnblockContent
          ((updateTask tasks tid
            (fun u => { u with status := TaskStatus.completed, completedAt := some now })).map
            (fun t => t.id))
          (updateTask tasks tid
            (fun u => { u with status := TaskStatus.completed, completedAt := some now }))
          msgs []
        rw [updateTask_map_id
          (f := fun u => { u with status := TaskStatus.completed, completedAt := some now })
          (fun u => rfl)] at hs
        simp only [List.nil_append] at he
        rw [he]
        exact hs

/-- C5: the code contradicts its own validation message ("Use only
letters, numbers, underscores, and hyphens"): because Python's `$`
matches just before a trailing newline, `validate_id` accepts the id
`"t1\n"` and `create_task` stores a task under it, although the id does
not consist solely of `[A-Za-z0-9_-]` characters (`spec_id_pattern`).
The empty and space-containing ids are rejected as claimed. -/
theorem c5_trailing_newline_id_accepted :
    validate_id "t1\n" = true ∧
    spec_id_pattern "t1\n" = false ∧
    TechDirector.create_task 7 "t1\n" "T" "D" [] []
      = ⟨TechDirector.CreateResult.success,
         [⟨"t1\n", "T", "D", none, TaskStatus.pending, [], 7, none⟩], 1⟩ ∧
    TechDirector.create_task 7 "bad id" "T" "D" [] []
      = ⟨TechDirector.CreateResult.invalidId, [], 0⟩ ∧
    TechDirector.create_task 7 "" "T" "D" [] []
      = ⟨TechDirector.CreateResult.invalidId, [], 0⟩ := by decide

/-- C8: the source takes no lock anywhere, so the read-modify-write race
loses updates.  Two concurrent `create_task` invocations with distinct
ids against the same initially-empty store, interleaved as load-1,
load-2, save-1, save-2, each load the empty store; the file after the
race equals the second invocation's saved `tasks`, which does not contain
the first invocation's task although that invocation reported success. -/
theorem c8_lost_update :
    (TechDirector.create_task 0 "a" "ta" "da" [] []).result
      = TechDirector.CreateResult.success ∧
    (TechDirector.create_task 0 "b" "tb" "db" [] []).result
      = TechDirector.CreateResult.success ∧
    findTask (TechDirector.create_task 0 "a" "ta" "da" [] []).tasks "a"
      = some ⟨"a", "ta", "da", none, TaskStatus.pending, [], 0, none⟩ ∧
    (TechDirector.create_task 0 "b" "tb" "db" [] []).tasks
      = [⟨"b", "tb", "db", none, TaskStatus.pending, [], 0, none⟩] ∧
    findTask (TechDirector.create_task 0 "b" "tb" "db" [] []).tasks "a" = none := by decide

/-- C9: every loader degrades a parse failure or unreadable file to the
empty collection plus a diagnostic, and a missing file to the empty
collection, instead of propagating the error; on a successful read the
parsed collection is returned with no diagnostic. -/
theorem c9_load_failures_empty :
    (∀ v : List Task, load_tasks (FileRead.ok v) = (v, [])) ∧
    load_tasks FileRead.absent = ([], []) ∧
    load_tasks FileRead.parseError = ([], ["Error: Corrupted tasks file."]) ∧
    load_tasks FileRead.unreadable = ([], ["Error loading tasks"]) ∧
    (∀ v : List Msg, load_messages (FileRead.ok v) = (v, [])) ∧
    load_messages FileRead.absent = ([], []) ∧
    load_messages FileRead.parseError = ([], ["Error: Corrupted messages file."]) ∧
    load_messages FileRead.unreadable = ([], ["Error loading messages"]) ∧
    (∀ v : List (String × Nat), load_groups (FileRead.ok v) = (v, [])) ∧
    load_groups FileRead.absent = ([], []) ∧
    load_groups FileRead.parseError = ([], ["Error: Corrupted groups file."]) ∧
    load_groups FileRead.unreadable = ([], ["Error loading groups"]) :=
  ⟨fun _ => rfl, rfl, rfl, rfl, fun _ => rfl, rfl, rfl, rfl, fun _ => rfl, rfl, rfl, rfl⟩

end AgentSwarm
